import Mathlib

/-!
Shallow embedding of `compose_api.go` (package `testcontainers`,
repository goforbroke1006/testcontainers-go) and proofs about the
stack lifecycle controller it implements: project compilation and
label stamping, service-subset filtering in `Up`, the container
cache behind `ServiceContainer`, environment injection, and the
`Down` teardown path.

External collaborators (the docker compose service, the Docker API
client, and the compose-go project compiler) are modelled as
parameters; the control flow and data manipulation of
`compose_api.go` itself is embedded directly.
-/

/-- Container descriptor returned by the Docker API list call
(`types.Container`); only its `ID` field is read by `compose_api.go`. -/
structure ContainerSummary where
  ID : String
deriving DecidableEq, Repr

/-- Type `DockerContainer`: the handle stored in the compose stack's container
cache. In Go it also carries a `provider` wrapping the Docker API client;
the client is a capability (no observable data), represented in this model
by the runtime-gateway parameters of the surrounding functions. -/
structure DockerContainer where
  ID : String
deriving DecidableEq, Repr

/-- Service entry `types.ServiceConfig` (compose-go): the fields `compose_api.go` reads or
writes are the service name and the custom-label map (modelled as an
association list). -/
structure ServiceConfig where
  Name : String
  CustomLabels : List (String × String)
deriving DecidableEq, Repr

/-- Compiled project `types.Project` (compose-go): the fields used by `compose_api.go`. -/
structure Project where
  Name : String
  WorkingDir : String
  ComposeFiles : List String
  Services : List ServiceConfig
deriving DecidableEq, Repr

/-! ### Go string ordering

Go compares strings lexicographically by byte; on valid UTF-8 this
coincides with lexicographic order on the code-point sequence, embedded
here as lexicographic order on the string's character list. -/

def charListLe : List Char → List Char → Bool
  | [], _ => true
  | _ :: _, [] => false
  | a :: as, b :: bs => if a < b then true else if b < a then false else charListLe as bs

/-- Go's `a <= b` on strings. -/
def strLe (a b : String) : Bool := charListLe a.data b.data

theorem charListLe_refl (as : List Char) : charListLe as as = true := by
  induction as with
  | nil => rfl
  | cons a as ih => simp [charListLe, lt_irrefl, ih]

theorem charListLe_total (as bs : List Char) :
    charListLe as bs = true ∨ charListLe bs as = true := by
  induction as generalizing bs with
  | nil => left; rfl
  | cons a as ih =>
    cases bs with
    | nil => right; rfl
    | cons b bs =>
      rcases lt_trichotomy a b with h | h | h
      · left; simp [charListLe, h]
      · subst h
        rcases ih bs with h' | h' <;> simp [charListLe, lt_irrefl, h']
      · right; simp [charListLe, h]

theorem charListLe_trans (as bs cs : List Char) (h1 : charListLe as bs = true)
    (h2 : charListLe bs cs = true) : charListLe as cs = true := by
  induction as generalizing bs cs with
  | nil => rfl
  | cons a as ih =>
    cases bs with
    | nil => simp [charListLe] at h1
    | cons b bs =>
      cases cs with
      | nil => simp [charListLe] at h2
      | cons c cs =>
        rcases lt_trichotomy a b with hab | hab | hab
        · rcases lt_trichotomy b c with hbc | hbc | hbc
          · simp [charListLe, lt_trans hab hbc]
          · subst hbc; simp [charListLe, hab]
          · simp [charListLe, hbc, not_lt_of_lt hbc] at h2
        · subst hab
          rcases lt_trichotomy a c with hbc | hbc | hbc
          · simp [charListLe, hbc]
          · subst hbc
            simp only [charListLe, lt_irrefl, if_false] at h1 h2 ⊢
            exact ih bs cs h1 h2
          · simp [charListLe, hbc, not_lt_of_lt hbc] at h2
        · simp [charListLe, hab, not_lt_of_lt hab] at h1

theorem charListLe_antisymm (as bs : List Char) (h1 : charListLe as bs = true)
    (h2 : charListLe bs as = true) : as = bs := by
  induction as generalizing bs with
  | nil =>
    cases bs with
    | nil => rfl
    | cons b bs => simp [charListLe] at h2
  | cons a as ih =>
    cases bs with
    | nil => simp [charListLe] at h1
    | cons b bs =>
      rcases lt_trichotomy a b with hab | hab | hab
      · simp [charListLe, hab, not_lt_of_lt hab] at h2
      · subst hab
        simp only [charListLe, lt_irrefl, if_false] at h1 h2
        rw [ih bs h1 h2]
      · simp [charListLe, hab, not_lt_of_lt hab] at h1

theorem strLe_refl (a : String) : strLe a a = true := charListLe_refl a.data

theorem strLe_total (a b : String) : strLe a b = true ∨ strLe b a = true :=
  charListLe_total a.data b.data

theorem strLe_trans (a b c : String) (h1 : strLe a b = true) (h2 : strLe b c = true) :
    strLe a c = true := charListLe_trans a.data b.data c.data h1 h2

theorem strLe_antisymm (a b : String) (h1 : strLe a b = true) (h2 : strLe b a = true) :
    a = b := by
  cases a; cases b
  exact congrArg String.mk (charListLe_antisymm _ _ h1 h2)

/-! ### `sort.Search` (Go standard library)

`sort.SearchStrings(a, x)` is `sort.Search(len(a), func(i int) bool { return
a[i] >= x })`: binary search for the smallest index at which the (monotone)
predicate holds, `len(a)` if none. The loop below is Go's `sort.Search`. -/

def sortSearch (f : Nat → Bool) (i j : Nat) : Nat :=
  if i < j then
    if f ((i + j) / 2) then sortSearch f i ((i + j) / 2)
    else sortSearch f ((i + j) / 2 + 1) j
  else i
termination_by j - i
decreasing_by
  · have hm : (i + j) / 2 < j := by
      rw [Nat.div_lt_iff_lt_mul (by norm_num)]
      omega
    omega
  · have hm : i ≤ (i + j) / 2 := by
      rw [Nat.le_div_iff_mul_le (by norm_num)]
      omega
    omega

theorem sortSearch_spec (f : Nat → Bool)
    (mono : ∀ a b, a ≤ b → f a = true → f b = true) :
    ∀ i j : Nat, i ≤ j →
      i ≤ sortSearch f i j ∧ sortSearch f i j ≤ j ∧
      (∀ k, i ≤ k → k < sortSearch f i j → f k = false) ∧
      (∀ k, sortSearch f i j ≤ k → k < j → f k = true) := by
  intro i j
  induction i, j using sortSearch.induct f with
  | case1 i j hij hm ih =>
    intro _
    have hmj : (i + j) / 2 < j := by
      rw [Nat.div_lt_iff_lt_mul (by norm_num)]
      omega
    have him : i ≤ (i + j) / 2 := by
      rw [Nat.le_div_iff_mul_le (by norm_num)]
      omega
    obtain ⟨h1, h2, h3, h4⟩ := ih him
    rw [sortSearch, if_pos hij, if_pos hm]
    refine ⟨h1, le_trans h2 (le_of_lt hmj), h3, ?_⟩
    intro k hk hkj
    by_cases hkm : k < (i + j) / 2
    · exact h4 k hk hkm
    · exact mono ((i + j) / 2) k (by omega) hm
  | case2 i j hij hm ih =>
    intro _
    have hmj : (i + j) / 2 < j := by
      rw [Nat.div_lt_iff_lt_mul (by norm_num)]
      omega
    have him : i ≤ (i + j) / 2 := by
      rw [Nat.le_div_iff_mul_le (by norm_num)]
      omega
    obtain ⟨h1, h2, h3, h4⟩ := ih (by omega)
    rw [sortSearch, if_pos hij, if_neg hm]
    refine ⟨by omega, h2, ?_, h4⟩
    intro k hk hkr
    by_cases hkm : (i + j) / 2 + 1 ≤ k
    · exact h3 k hkm hkr
    · have hkm' : k ≤ (i + j) / 2 := by omega
      cases hfk : f k with
      | false => rfl
      | true => exact absurd (mono k ((i + j) / 2) hkm' hfk) (by simpa using hm)
  | case3 i j hij =>
    intro hle
    have : i = j := by omega
    subst this
    rw [sortSearch, if_neg (lt_irrefl i)]
    exact ⟨le_refl i, le_refl i, fun k hk hki => by omega, fun k hk hki => by omega⟩

/-! ### `sort.Strings` and `sort.SearchStrings` on string lists -/

/-- The ordering relation of Go's `sort.Strings`, as a `Prop`. -/
def strLeRel (a b : String) : Prop := strLe a b = true

instance : DecidableRel strLeRel :=
  fun a b => inferInstanceAs (Decidable (strLe a b = true))

instance : IsTotal String strLeRel := ⟨strLe_total⟩

instance : IsTrans String strLeRel := ⟨strLe_trans⟩

/-- Model of `sort.Strings`: sorts ascending. Go uses an in-place quicksort variant,
but over a total order whose equal elements are identical strings every
correct sort returns the same list, so a sorted permutation is the faithful
model. -/
def sortStrings (l : List String) : List String := List.insertionSort strLeRel l

/-- Model of `sort.SearchStrings(a, x)`: smallest index `i` with `a[i] >= x` (length of
`a` if none), by binary search. The Go predicate only ever indexes in bounds;
out of range `getD` supplies `x` itself, keeping the predicate monotone. -/
def searchStrings (a : List String) (x : String) : Nat :=
  sortSearch (fun m => strLe x (a.getD m x)) 0 a.length

/-- The per-service membership test in `Up` (compose_api.go line 234):
`idx := sort.SearchStrings(services, name); idx < len(services) &&
services[idx] == name`. -/
def searchFound (a : List String) (x : String) : Bool :=
  decide (searchStrings a x < a.length) && (a.getD (searchStrings a x) x == x)

theorem searchFound_sorted (a : List String) (hs : List.Sorted strLeRel a)
    (x : String) : searchFound a x = true ↔ x ∈ a := by
  have mono : ∀ m m', m ≤ m' →
      (fun m => strLe x (a.getD m x)) m = true →
      (fun m => strLe x (a.getD m x)) m' = true := by
    intro m m' hmm hfm
    simp only at hfm ⊢
    by_cases hm' : m' < a.length
    · have hm : m < a.length := lt_of_le_of_lt hmm hm'
      rw [List.getD_eq_get a x hm'] at *
      rw [List.getD_eq_get a x hm] at hfm
      rcases lt_or_eq_of_le hmm with hlt | heq
      · exact strLe_trans _ _ _ hfm (hs.rel_get_of_lt hlt)
      · subst heq; exact hfm
    · rw [List.getD_eq_default a x (le_of_not_lt hm')]
      exact strLe_refl x
  obtain ⟨h1, h2, h3, h4⟩ :=
    sortSearch_spec (fun m => strLe x (a.getD m x)) mono 0 a.length (Nat.zero_le _)
  constructor
  · intro hf
    simp only [searchFound, Bool.and_eq_true, decide_eq_true_eq, beq_iff_eq] at hf
    obtain ⟨hlt, heq⟩ := hf
    rw [List.getD_eq_get a x hlt] at heq
    rw [← heq]
    exact a.get_mem _ _
  · intro hx
    obtain ⟨k, hk⟩ := List.mem_iff_get.mp hx
    have hfk : strLe x (a.getD k.1 x) = true := by
      rw [List.getD_eq_get a x k.2, hk]
      exact strLe_refl x
    have hkr : searchStrings a x ≤ k.1 := by
      by_contra hcon
      have := h3 k.1 (Nat.zero_le _) (lt_of_not_le hcon)
      simp only [searchStrings] at this
      rw [this] at hfk
      exact Bool.false_ne_true hfk
    have hrlen : searchStrings a x < a.length := lt_of_le_of_lt hkr k.2
    have hfr : strLe x (a.getD (searchStrings a x) x) = true := h4 _ (le_refl _) hrlen
    have hrx : a.get ⟨searchStrings a x, hrlen⟩ = x := by
      rcases lt_or_eq_of_le hkr with hlt | heq
      · have hup : strLe (a.get ⟨searchStrings a x, hrlen⟩) x = true := by
          have := hs.rel_get_of_lt (a := ⟨searchStrings a x, hrlen⟩) (b := k) hlt
          rw [hk] at this
          exact this
        rw [List.getD_eq_get a x hrlen] at hfr
        exact strLe_antisymm _ _ hup hfr
      · have hfin : (⟨searchStrings a x, hrlen⟩ : Fin a.length) = k := Fin.ext heq
        rw [hfin, hk]
    simp only [searchFound, Bool.and_eq_true, decide_eq_true_eq, beq_iff_eq]
    refine ⟨hrlen, ?_⟩
    rw [List.getD_eq_get a x hrlen, hrx]

/-- Searching the sorted copy of `requested` for `x` decides membership in
`requested`. -/
theorem searchFound_mem (requested : List String) (x : String) :
    searchFound (sortStrings requested) x = decide (x ∈ requested) := by
  have hs : List.Sorted strLeRel (sortStrings requested) :=
    List.sorted_insertionSort strLeRel requested
  have hperm := List.perm_insertionSort strLeRel requested
  by_cases h : x ∈ requested
  · have hmem : x ∈ sortStrings requested := hperm.mem_iff.mpr h
    simp [h, (searchFound_sorted _ hs x).mpr hmem]
  · have hmem : x ∉ sortStrings requested := fun hx => h (hperm.mem_iff.mp hx)
    have hfalse : searchFound (sortStrings requested) x = false := by
      cases hsf : searchFound (sortStrings requested) x with
      | false => rfl
      | true => exact absurd ((searchFound_sorted _ hs x).mp hsf) hmem
    rw [hfalse]
    exact (decide_eq_false h).symm

/-! ### Service-subset filtering in `Up` (compose_api.go lines 228-240) -/

/-- The filtering loop of `Up`: sort the requested names (`sort.Strings`, line
229), then walk `d.project.Services` in compiled order and keep each service
whose name binary-searches into the sorted request (lines 233-237). The Go
loop appends the retained entries to a fresh slice in scan order, i.e. it is a
filter. -/
def filterServices (requested : List String) (services : List ServiceConfig) :
    List ServiceConfig :=
  services.filter (fun s => searchFound (sortStrings requested) s.Name)

/-- Lines 228-240 of `Up`: the filtering runs only when the requested list's
length differs from the project's service count (`len(upOptions.Services) !=
len(d.project.Services)`); otherwise `d.project.Services` is left untouched. -/
def upFilter (requested : List String) (services : List ServiceConfig) :
    List ServiceConfig :=
  if requested.length ≠ services.length then filterServices requested services
  else services

theorem filterServices_eq_filter (requested : List String)
    (services : List ServiceConfig) :
    filterServices requested services =
      services.filter (fun s => decide (s.Name ∈ requested)) := by
  simp only [filterServices, searchFound_mem]

/-- Claim C3: when the requested name list's size differs from the project's service
count, `Up`'s filtering produces exactly the project services whose names are
in the requested set, as a sublist of the compiled list: original relative
order is preserved, nothing is duplicated or reordered. -/
theorem up_subset_filter_exact (requested : List String)
    (services : List ServiceConfig) (h : requested.length ≠ services.length) :
    upFilter requested services =
      services.filter (fun s => decide (s.Name ∈ requested)) ∧
    (upFilter requested services).Sublist services ∧
    (services.Nodup → (upFilter requested services).Nodup) := by
  have he : upFilter requested services =
      services.filter (fun s => decide (s.Name ∈ requested)) := by
    rw [upFilter, if_pos h, filterServices_eq_filter]
  refine ⟨he, ?_, ?_⟩
  · rw [he]
    exact List.filter_sublist services
  · intro hnd
    rw [he]
    exact hnd.filter _

def svcsABCD : List ServiceConfig :=
  [⟨"A", []⟩, ⟨"B", []⟩, ⟨"C", []⟩, ⟨"D", []⟩]

theorem up_subset_filter_exact_witness :
    (["D", "B"] : List String).length ≠ svcsABCD.length ∧
    (upFilter ["D", "B"] svcsABCD =
        svcsABCD.filter (fun s => decide (s.Name ∈ (["D", "B"] : List String))) ∧
      (upFilter ["D", "B"] svcsABCD).Sublist svcsABCD ∧
      (svcsABCD.Nodup → (upFilter ["D", "B"] svcsABCD).Nodup)) :=
  ⟨by decide, up_subset_filter_exact ["D", "B"] svcsABCD (by decide)⟩

/-- Spec example: requesting `[D, B]` from `[A, B, C, D]` yields `[B, D]` in
the compiled order, not the request order. -/
theorem upFilter_example : upFilter ["D", "B"] svcsABCD = [⟨"B", []⟩, ⟨"D", []⟩] := by
  rw [upFilter, if_pos (by decide), filterServices_eq_filter]
  decide

/-- Claim C4: a requested name that no project service carries is silently dropped
by the filtering: it is as if the name had not been requested (no error — the
filter is total — and no entry is produced for it), while services whose names
were requested are all retained. -/
theorem up_unknown_name_dropped (requested : List String)
    (services : List ServiceConfig) (ghost : String)
    (hg : ghost ∉ services.map ServiceConfig.Name) (_hmem : ghost ∈ requested) :
    filterServices requested services =
      filterServices (requested.erase ghost) services ∧
    (∀ s ∈ services, s.Name ∈ requested → s ∈ filterServices requested services) ∧
    (∀ s ∈ filterServices requested services, s.Name ≠ ghost) := by
  rw [filterServices_eq_filter, filterServices_eq_filter]
  refine ⟨?_, ?_, ?_⟩
  · apply List.filter_congr
    intro s hs
    have hne : s.Name ≠ ghost := fun he =>
      hg (he ▸ List.mem_map_of_mem ServiceConfig.Name hs)
    exact decide_eq_decide.mpr (List.mem_erase_of_ne hne).symm
  · intro s hs hname
    rw [List.mem_filter]
    exact ⟨hs, by simpa using hname⟩
  · intro s hs
    have hmem' : s ∈ services := List.mem_of_mem_filter hs
    exact fun he => hg (he ▸ List.mem_map_of_mem ServiceConfig.Name hmem')

theorem up_unknown_name_dropped_witness :
    ("ghost" ∉ ([⟨"A", []⟩] : List ServiceConfig).map ServiceConfig.Name) ∧
    ("ghost" ∈ (["A", "ghost"] : List String)) ∧
    (filterServices ["A", "ghost"] [⟨"A", []⟩] =
        filterServices ((["A", "ghost"] : List String).erase "ghost") [⟨"A", []⟩] ∧
      (∀ s ∈ ([⟨"A", []⟩] : List ServiceConfig), s.Name ∈ (["A", "ghost"] : List String) →
        s ∈ filterServices ["A", "ghost"] [⟨"A", []⟩]) ∧
      (∀ s ∈ filterServices ["A", "ghost"] [⟨"A", []⟩], s.Name ≠ "ghost")) :=
  ⟨by decide, by decide,
    up_unknown_name_dropped ["A", "ghost"] [⟨"A", []⟩] "ghost" (by decide) (by decide)⟩

/-- Claim C5: when the requested list's length equals the project's service count,
the filtering is skipped entirely and the compiled service list is returned
unchanged — even if the requested names do not match the project's names. -/
theorem up_filter_skipped_on_equal_length (requested : List String)
    (services : List ServiceConfig) (h : requested.length = services.length) :
    upFilter requested services = services := by
  simp [upFilter, h]

theorem up_filter_skipped_on_equal_length_witness :
    (["zzz"] : List String).length = ([⟨"A", []⟩] : List ServiceConfig).length ∧
    ("zzz" ∉ ([⟨"A", []⟩] : List ServiceConfig).map ServiceConfig.Name) ∧
    upFilter ["zzz"] [⟨"A", []⟩] = [⟨"A", []⟩] :=
  ⟨by decide, by decide, up_filter_skipped_on_equal_length ["zzz"] [⟨"A", []⟩] (by decide)⟩

/-! ### The container cache and `lookupContainer` (compose_api.go lines 305-338) -/

/-- The Docker API client's `ContainerList` call as used by `lookupContainer`:
the request carries `All: true` and two label filters,
`com.docker.compose.project=<stack name>` and
`com.docker.compose.service=<service name>` (lines 310-316); the reply is the
ordered descriptor list or an error. The model takes the two label values. -/
def RuntimeList := String → String → Except String (List ContainerSummary)

/-- Outcome of one `lookupContainer` invocation: the returned value, the
container cache afterwards (`d.containers`), and how many `ContainerList`
queries the invocation issued (0 or 1). -/
structure LookupResult where
  result : Except String DockerContainer
  containers : List (String × DockerContainer)
  listQueries : Nat
deriving Repr

/-- Function `lookupContainer` (lines 305-338): serve from the cache when the name is
present; otherwise issue one `ContainerList` query; propagate a query error;
fail with `no container found for service name <name>` when zero descriptors
match; otherwise wrap the first descriptor in a `DockerContainer` and insert
it into the cache. The Go map insert is modelled by consing the binding (a
later `lookup` sees the newest binding first). -/
def lookupContainer (cache : List (String × DockerContainer)) (stackName : String)
    (runtime : RuntimeList) (svcName : String) : LookupResult :=
  match cache.lookup svcName with
  | some container => ⟨.ok container, cache, 0⟩
  | none =>
    match runtime stackName svcName with
    | .error e => ⟨.error e, cache, 1⟩
    | .ok containers =>
      match containers with
      | [] => ⟨.error ("no container found for service name " ++ svcName), cache, 1⟩
      | containerInstance :: _ =>
        ⟨.ok ⟨containerInstance.ID⟩,
          (svcName, (⟨containerInstance.ID⟩ : DockerContainer)) :: cache, 1⟩

/-- Claim C6: a successful lookup leaves the handle in the cache under the service
name, a later lookup for the same name returns that cached handle without
consulting the runtime at all (any second runtime behaviour gives the same
answer and zero queries), and the two sequential lookups issue at most one
list-query in total. -/
theorem lookup_cached_after_success (cache : List (String × DockerContainer))
    (stackName : String) (runtime runtime' : RuntimeList) (svcName : String)
    (c : DockerContainer)
    (h : (lookupContainer cache stackName runtime svcName).result = .ok c) :
    ((lookupContainer cache stackName runtime svcName).containers.lookup svcName
        = some c) ∧
    (lookupContainer (lookupContainer cache stackName runtime svcName).containers
        stackName runtime' svcName =
      ⟨.ok c, (lookupContainer cache stackName runtime svcName).containers, 0⟩) ∧
    (lookupContainer cache stackName runtime svcName).listQueries +
      (lookupContainer (lookupContainer cache stackName runtime svcName).containers
          stackName runtime' svcName).listQueries ≤ 1 := by
  cases hc : cache.lookup svcName with
  | some c0 =>
    simp only [lookupContainer, hc] at h ⊢
    obtain rfl : c0 = c := by simpa using h
    simp [hc]
  | none =>
    cases hrt : runtime stackName svcName with
    | error e => simp [lookupContainer, hc, hrt] at h
    | ok lst =>
      cases lst with
      | nil => simp [lookupContainer, hc, hrt] at h
      | cons c0 rest =>
        simp only [lookupContainer, hc, hrt] at h ⊢
        obtain rfl : (⟨c0.ID⟩ : DockerContainer) = c := by simpa using h
        simp [List.lookup]

/-- Claim C7: on a cache miss answered by a successful runtime list reply, the
lookup fails with the service-not-found error exactly when zero descriptors
matched; with one or more matches the first descriptor in the runtime's
returned order becomes the handle. -/
theorem lookup_not_found_iff (cache : List (String × DockerContainer))
    (stackName : String) (runtime : RuntimeList) (svcName : String)
    (lst : List ContainerSummary)
    (hmiss : cache.lookup svcName = none)
    (hrt : runtime stackName svcName = .ok lst) :
    ((lookupContainer cache stackName runtime svcName).result =
        .error ("no container found for service name " ++ svcName) ↔ lst = []) ∧
    (∀ c0 rest, lst = c0 :: rest →
      (lookupContainer cache stackName runtime svcName).result = .ok ⟨c0.ID⟩) := by
  cases lst with
  | nil => simp [lookupContainer, hmiss, hrt]
  | cons c0 rest => simp [lookupContainer, hmiss, hrt]

/-- Claim C10: a failed lookup (runtime query error or zero matches) leaves the
container cache unchanged — no entry is inserted for the service name — so on
a cache miss a later lookup for the same name issues a fresh runtime
list-query. -/
theorem lookup_error_leaves_cache (cache : List (String × DockerContainer))
    (stackName : String) (runtime : RuntimeList) (svcName : String) (e : String)
    (h : (lookupContainer cache stackName runtime svcName).result = .error e) :
    ((lookupContainer cache stackName runtime svcName).containers = cache) ∧
    (cache.lookup svcName = none → ∀ runtime' : RuntimeList,
      (lookupContainer cache stackName runtime' svcName).listQueries = 1) := by
  refine ⟨?_, ?_⟩
  · cases hc : cache.lookup svcName with
    | some c0 => simp [lookupContainer, hc]
    | none =>
      cases hrt : runtime stackName svcName with
      | error e' => simp [lookupContainer, hc, hrt]
      | ok lst =>
        cases lst with
        | nil => simp [lookupContainer, hc, hrt]
        | cons c0 rest => simp [lookupContainer, hc, hrt] at h
  · intro hmiss runtime'
    cases hrt : runtime' stackName svcName with
    | error e' => simp [lookupContainer, hmiss, hrt]
    | ok lst =>
      cases lst with
      | nil => simp [lookupContainer, hmiss, hrt]
      | cons c0 rest => simp [lookupContainer, hmiss, hrt]

/-- A runtime whose list reply holds one container. -/
def rtOne : RuntimeList := fun _ _ => .ok [⟨"cid-1"⟩]

/-- A runtime whose list reply is empty. -/
def rtEmpty : RuntimeList := fun _ _ => .ok []

/-- A runtime whose list call fails. -/
def rtErr : RuntimeList := fun _ _ => .error "engine unreachable"

theorem lookup_cached_after_success_witness :
    ((lookupContainer [] "stack" rtOne "web").result = .ok ⟨"cid-1"⟩) ∧
    (((lookupContainer [] "stack" rtOne "web").containers.lookup "web"
        = some ⟨"cid-1"⟩) ∧
      (lookupContainer (lookupContainer [] "stack" rtOne "web").containers
          "stack" rtErr "web" =
        ⟨.ok ⟨"cid-1"⟩, (lookupContainer [] "stack" rtOne "web").containers, 0⟩) ∧
      (lookupContainer [] "stack" rtOne "web").listQueries +
        (lookupContainer (lookupContainer [] "stack" rtOne "web").containers
            "stack" rtErr "web").listQueries ≤ 1) :=
  ⟨rfl, lookup_cached_after_success [] "stack" rtOne rtErr "web" ⟨"cid-1"⟩ rfl⟩

theorem lookup_not_found_iff_witness :
    (([] : List (String × DockerContainer)).lookup "web" = none) ∧
    (rtEmpty "stack" "web" = .ok []) ∧
    (((lookupContainer [] "stack" rtEmpty "web").result =
        .error ("no container found for service name " ++ "web") ↔
          ([] : List ContainerSummary) = []) ∧
      (∀ c0 rest, ([] : List ContainerSummary) = c0 :: rest →
        (lookupContainer [] "stack" rtEmpty "web").result = .ok ⟨c0.ID⟩)) :=
  ⟨rfl, rfl, lookup_not_found_iff [] "stack" rtEmpty "web" [] rfl rfl⟩

theorem lookup_error_leaves_cache_witness :
    ((lookupContainer [] "stack" rtErr "web").result = .error "engine unreachable") ∧
    (((lookupContainer [] "stack" rtErr "web").containers = []) ∧
      (([] : List (String × DockerContainer)).lookup "web" = none →
        ∀ runtime' : RuntimeList,
          (lookupContainer [] "stack" runtime' "web").listQueries = 1)) :=
  ⟨rfl, lookup_error_leaves_cache [] "stack" rtErr "web" "engine unreachable" rfl⟩

/-! ### Label stamping in `compileProject` (compose_api.go lines 357-370)

Label keys are the constants of the docker compose `api` package;
`api.ComposeVersion` is a fixed version string baked into that library, whose
concrete value is irrelevant to every property proved here. -/

def ProjectLabel : String := "com.docker.compose.project"

def ServiceLabel : String := "com.docker.compose.service"

def VersionLabel : String := "com.docker.compose.version"

def WorkingDirLabel : String := "com.docker.compose.project.working_dir"

def ConfigFilesLabel : String := "com.docker.compose.project.config_files"

def OneoffLabel : String := "com.docker.compose.oneoff"

def EnvironmentFileLabel : String := "com.docker.compose.project.environment_file"

def ComposeVersion : String := "2.0.0"

/-- The label map stamped on one service, as a pure function of the project
name, service name, working directory, manifest file list and
environment-file path. -/
def serviceLabels (projName svcName workingDir : String)
    (composeFiles : List String) (envFile : String) : List (String × String) :=
  [(ProjectLabel, projName),
   (ServiceLabel, svcName),
   (VersionLabel, ComposeVersion),
   (WorkingDirLabel, workingDir),
   (ConfigFilesLabel, String.intercalate "," composeFiles),
   (OneoffLabel, "False")] ++
  (if envFile ≠ "" then [(EnvironmentFileLabel, envFile)] else [])

/-- Lines 357-370 of `compileProject`: after the external compiler returns
the project, every service's `CustomLabels` map is overwritten with the six
compose labels (project, service, version, working dir, config files joined
by commas, one-off `"False"`), plus the environment-file label exactly when
`compiledOptions.EnvFile` is non-empty. -/
def stampLabels (proj : Project) (envFile : String) : Project :=
  { proj with
    Services := proj.Services.map fun s =>
      { s with
        CustomLabels :=
          [(ProjectLabel, proj.Name),
           (ServiceLabel, s.Name),
           (VersionLabel, ComposeVersion),
           (WorkingDirLabel, proj.WorkingDir),
           (ConfigFilesLabel, String.intercalate "," proj.ComposeFiles),
           (OneoffLabel, "False")] ++
          (if envFile ≠ "" then [(EnvironmentFileLabel, envFile)] else []) } }

theorem stampLabels_mem (p : Project) (e : String) (s : ServiceConfig)
    (hs : s ∈ (stampLabels p e).Services) :
    s.CustomLabels = serviceLabels p.Name s.Name p.WorkingDir p.ComposeFiles e := by
  simp only [stampLabels, List.mem_map] at hs
  obtain ⟨s0, _, rfl⟩ := hs
  rfl

theorem serviceLabels_lookup_envfile (projName svcName workingDir : String)
    (composeFiles : List String) (envFile : String) :
    (serviceLabels projName svcName workingDir composeFiles envFile).lookup
        EnvironmentFileLabel =
      if envFile ≠ "" then some envFile else none := by
  by_cases hef : envFile = "" <;>
    simp [serviceLabels, hef, List.lookup, ProjectLabel, ServiceLabel, VersionLabel,
      WorkingDirLabel, ConfigFilesLabel, OneoffLabel, EnvironmentFileLabel]

/-- Claim C9: label stamping is deterministic — a stamped service's label map is
exactly the pure function of (project name, service name, working directory,
manifest file list, environment-file path); two compilations whose inputs
agree therefore stamp identical label maps onto services of the same name,
and the environment-file label is present exactly when an environment file
was supplied. -/
theorem stamp_labels_deterministic (p1 p2 : Project) (envFile1 envFile2 : String)
    (s1 s2 : ServiceConfig)
    (hs1 : s1 ∈ (stampLabels p1 envFile1).Services)
    (hs2 : s2 ∈ (stampLabels p2 envFile2).Services)
    (hname : p1.Name = p2.Name) (hwd : p1.WorkingDir = p2.WorkingDir)
    (hcf : p1.ComposeFiles = p2.ComposeFiles) (hef : envFile1 = envFile2)
    (hsname : s1.Name = s2.Name) :
    s1.CustomLabels =
      serviceLabels p1.Name s1.Name p1.WorkingDir p1.ComposeFiles envFile1 ∧
    s1.CustomLabels = s2.CustomLabels ∧
    (s1.CustomLabels.lookup EnvironmentFileLabel =
      if envFile1 ≠ "" then some envFile1 else none) := by
  have h1 := stampLabels_mem p1 envFile1 s1 hs1
  have h2 := stampLabels_mem p2 envFile2 s2 hs2
  refine ⟨h1, ?_, ?_⟩
  · rw [h1, h2, hname, hwd, hcf, hef, hsname]
  · rw [h1, serviceLabels_lookup_envfile]

def projLbl1 : Project := ⟨"proj", "/wd", ["a.yml", "b.yml"], [⟨"svc", []⟩]⟩

def projLbl2 : Project := ⟨"proj", "/wd", ["a.yml", "b.yml"], [⟨"svc", [("old", "x")]⟩]⟩

theorem stamp_labels_deterministic_witness :
    ((⟨"svc", serviceLabels "proj" "svc" "/wd" ["a.yml", "b.yml"] ".env"⟩ : ServiceConfig)
        ∈ (stampLabels projLbl1 ".env").Services) ∧
    ((⟨"svc", serviceLabels "proj" "svc" "/wd" ["a.yml", "b.yml"] ".env"⟩ : ServiceConfig)
        ∈ (stampLabels projLbl2 ".env").Services) ∧
    ((⟨"svc", serviceLabels "proj" "svc" "/wd" ["a.yml", "b.yml"] ".env"⟩ :
        ServiceConfig).CustomLabels =
      serviceLabels projLbl1.Name "svc" projLbl1.WorkingDir projLbl1.ComposeFiles ".env" ∧
    (⟨"svc", serviceLabels "proj" "svc" "/wd" ["a.yml", "b.yml"] ".env"⟩ :
        ServiceConfig).CustomLabels =
      (⟨"svc", serviceLabels "proj" "svc" "/wd" ["a.yml", "b.yml"] ".env"⟩ :
        ServiceConfig).CustomLabels ∧
    ((⟨"svc", serviceLabels "proj" "svc" "/wd" ["a.yml", "b.yml"] ".env"⟩ :
        ServiceConfig).CustomLabels.lookup EnvironmentFileLabel =
      if (".env" : String) ≠ "" then some ".env" else none)) :=
  ⟨by decide, by decide,
    stamp_labels_deterministic projLbl1 projLbl2 ".env" ".env" _ _
      (by decide) (by decide) rfl rfl rfl rfl rfl⟩

/-! ### Environment injection (`WithEnv`, lines 289-295; `withEnv`, lines 375-387) -/

/-- Map `cli.ProjectOptions.Environment`: a string-keyed map, modelled as an
association list. Inserts happen only at keys proved absent, so consing is
exactly map insert. -/
abbrev Environment := List (String × String)

/-- A `cli.ProjectOptionsFn`, observed on the environment map: each option
function mutates the shared options record in place and may return an error.
The model returns the mutated environment next to the error, matching the
in-place mutation (the map keeps whatever was written before the error). -/
abbrev ProjectOptionFn := Environment → Option String × Environment

/-- The loop body of `withEnv` (lines 377-383): Go iterates the argument map
(iteration order of a Go map is unspecified; the model takes the entries as a
list, fixing one order — all claims below use single-entry maps, where the
orders coincide). -/
def withEnvLoop : List (String × String) → Environment → Option String × Environment
  | [], env => (none, env)
  | (k, v) :: rest, env =>
    if (env.lookup k).isSome then
      (some ("environment with key " ++ k ++ " already set"), env)
    else withEnvLoop rest ((k, v) :: env)

/-- Option function `withEnv` (lines 375-387): for each entry of `m`, fail if the key is
already present in `options.Environment`, otherwise insert it. -/
def withEnv (m : List (String × String)) : ProjectOptionFn :=
  fun env => withEnvLoop m env

/-- A readiness strategy (`wait.Strategy`), observed through
`WaitUntilReady(ctx, target)`: the resolved container in, an error or
success out. -/
abbrev WaitStrategy := DockerContainer → Option String

/-- The `dockerCompose` struct (lines 143-175). The lock serializes the
public operations and is not part of the data; the compose service and
docker client are capabilities passed as parameters where used. -/
structure DockerComposeState where
  name : String
  configs : List String
  waitStrategies : List (String × WaitStrategy)
  containers : List (String × DockerContainer)
  projectOptions : List ProjectOptionFn
  project : Option Project

/-- Mutator `WithEnv` (lines 289-295): appends `withEnv(m)` to the accumulated
project options and returns the controller for chaining. Its signature has
no error result; the appended closure only runs later, inside
`compileProject`. -/
def WithEnv (d : DockerComposeState) (m : List (String × String)) :
    DockerComposeState :=
  { d with projectOptions := d.projectOptions ++ [withEnv m] }

/-- Model of `cli.NewProjectOptions` (compose-go, external): builds an options record
with an empty environment and applies each accumulated option function in
order, aborting at the first error. -/
def applyProjectOptions : List ProjectOptionFn → Environment →
    Option String × Environment
  | [], env => (none, env)
  | f :: rest, env =>
    match f env with
    | (some e, env') => (some e, env')
    | (none, env') => applyProjectOptions rest env'

/-- Model of `cli.WithName` (compose-go, external): sets the project-name option; it
never touches the environment and never fails, so on the environment view it
is the identity. -/
def cliWithName : ProjectOptionFn := fun env => (none, env)

/-- Model of `cli.WithDefaultConfigPath` (compose-go, external): resolves default
manifest paths; it never touches the environment and never fails. -/
def cliWithDefaultConfigPath : ProjectOptionFn := fun env => (none, env)

/-- The environment-relevant part of `compileProject` (lines 340-352): the
accumulated option functions, with `cli.WithName` and
`cli.WithDefaultConfigPath` appended last, are applied to a fresh options
record by `cli.NewProjectOptions`. -/
def compileEnv (d : DockerComposeState) : Option String × Environment :=
  applyProjectOptions (d.projectOptions ++ [cliWithName, cliWithDefaultConfigPath]) []

theorem applyProjectOptions_append (fns1 fns2 : List ProjectOptionFn)
    (env : Environment) :
    applyProjectOptions (fns1 ++ fns2) env =
      match applyProjectOptions fns1 env with
      | (some e, env') => (some e, env')
      | (none, env') => applyProjectOptions fns2 env' := by
  induction fns1 generalizing env with
  | nil => rfl
  | cons f rest ih =>
    simp only [List.cons_append, applyProjectOptions]
    cases f env with
    | mk err env' =>
      cases err with
      | none => exact ih env'
      | some e => rfl

/-- A freshly configured controller: no options, no bindings, no compiled
project. -/
def fresh : DockerComposeState := ⟨"stack", [], [], [], [], none⟩

/-- Counterexample to claim C2: after injecting `{"X":"1"}` and then `{"X":"2"}`, both
mutator calls have succeeded — the controller holds both accumulated option
closures, the mutator's signature having no error to return — and the
duplicate-key error surfaces only when the accumulated options are applied
during compilation (inside `Up`), at which point the environment still holds
the first value. -/
theorem withenv_duplicate_not_synchronous :
    (WithEnv (WithEnv fresh [("X", "1")]) [("X", "2")]).projectOptions.length = 2 ∧
    (compileEnv (WithEnv (WithEnv fresh [("X", "1")]) [("X", "2")])).1 =
      some "environment with key X already set" ∧
    (compileEnv (WithEnv (WithEnv fresh [("X", "1")]) [("X", "2")])).2 =
      [("X", "1")] :=
  ⟨rfl, rfl, rfl⟩

/-- Claim C2 as amended: injecting the same key twice is accepted by both mutator
calls (which cannot fail); the duplicate-key error is surfaced later, from
the option application inside compilation, naming the duplicated key, and at
that point the environment still carries the first injected value — the
second is never written. -/
theorem withenv_duplicate_error_from_compile (d : DockerComposeState)
    (k v1 v2 : String) (env0 : Environment)
    (h1 : applyProjectOptions d.projectOptions [] = (none, env0))
    (h2 : env0.lookup k = none) :
    (compileEnv (WithEnv (WithEnv d [(k, v1)]) [(k, v2)])).1 =
      some ("environment with key " ++ k ++ " already set") ∧
    (compileEnv (WithEnv (WithEnv d [(k, v1)]) [(k, v2)])).2 = (k, v1) :: env0 := by
  have hres : compileEnv (WithEnv (WithEnv d [(k, v1)]) [(k, v2)]) =
      (some ("environment with key " ++ k ++ " already set"), (k, v1) :: env0) := by
    simp only [compileEnv, WithEnv, List.append_assoc]
    rw [applyProjectOptions_append d.projectOptions _ [], h1]
    simp only [List.cons_append, List.nil_append, applyProjectOptions, withEnv,
      withEnvLoop, h2, Option.isSome_none, Bool.false_eq_true, if_false,
      List.lookup_cons_self, Option.isSome_some, if_true]
  rw [hres]
  exact ⟨rfl, rfl⟩

theorem withenv_duplicate_error_from_compile_witness :
    applyProjectOptions fresh.projectOptions [] = (none, []) ∧
    ([] : Environment).lookup "X" = none ∧
    ((compileEnv (WithEnv (WithEnv fresh [("X", "1")]) [("X", "9")])).1 =
        some ("environment with key " ++ "X" ++ " already set") ∧
      (compileEnv (WithEnv (WithEnv fresh [("X", "1")]) [("X", "9")])).2 =
        ("X", "1") :: ([] : Environment)) :=
  ⟨rfl, rfl, withenv_duplicate_error_from_compile fresh "X" "1" "9" [] rfl rfl⟩

/-! ### `Down` (compose_api.go lines 191-206) -/

/-- Constants of `RemoveImages` (lines 136-141): `RemoveImagesAll = 0`,
`RemoveImagesLocal = 1` (a `uint8` enumeration). -/
def RemoveImagesAll : Nat := 0

def RemoveImagesLocal : Nat := 1

/-- Record `api.DownOptions`, the fields this file sets: the compiled project (seeded
from `d.project`, which is `nil` before any `Up`), orphan removal, and the
image-removal policy (`""` unset / `"all"` / `"local"`). -/
structure DownOptions where
  Project : Option Project
  RemoveOrphans : Bool
  Images : String

/-- The `StackDownOption` implementations in this file: `RemoveOrphans`
(lines 60-62) and `RemoveImages` (lines 74-81). -/
inductive StackDownOption where
  | removeOrphans (b : Bool)
  | removeImages (ri : Nat)

/-- Application `applyToStackDown` of each option: `RemoveOrphans` sets the flag;
`RemoveImages` switches on its value, setting `Images` to `"all"` or
`"local"` and leaving it untouched for any other value. -/
def applyToStackDown : StackDownOption → DownOptions → DownOptions
  | .removeOrphans b, o => { o with RemoveOrphans := b }
  | .removeImages ri, o =>
    if ri = RemoveImagesAll then { o with Images := "all" }
    else if ri = RemoveImagesLocal then { o with Images := "local" }
    else o

/-- The compose service's `Down(ctx, name, options)` call. -/
abbrev DownGateway := String → DownOptions → Option String

/-- Result of one `Down` call: the returned error and the teardown calls
issued to the compose service (stack name and options of each). -/
structure DownRun where
  err : Option String
  gatewayCalls : List (String × DownOptions)

/-- Method `Down` (lines 191-206): builds `stackDownOptions` seeded with
`Project: d.project`, applies each supplied option, and unconditionally
issues exactly one teardown call to the compose service, returning its
result. There is no check that a project was ever compiled. -/
def Down (d : DockerComposeState) (gateway : DownGateway)
    (opts : List StackDownOption) : DownRun :=
  let options := opts.foldl (fun acc o => applyToStackDown o acc)
    { Project := d.project, RemoveOrphans := false, Images := "" }
  { err := gateway d.name options, gatewayCalls := [(d.name, options)] }

theorem applyToStackDown_project (o : StackDownOption) (acc : DownOptions) :
    (applyToStackDown o acc).Project = acc.Project := by
  cases o with
  | removeOrphans b => rfl
  | removeImages ri =>
    simp only [applyToStackDown]
    split
    · rfl
    · split <;> rfl

theorem foldl_applyToStackDown_project (opts : List StackDownOption)
    (acc : DownOptions) :
    (opts.foldl (fun a o => applyToStackDown o a) acc).Project = acc.Project := by
  induction opts generalizing acc with
  | nil => rfl
  | cons o rest ih => rw [List.foldl_cons, ih, applyToStackDown_project]

/-- Counterexample to claim C1: on a freshly configured, never-started controller
(`project = nil`), `Down` does not fail with a caller-misuse error — with a
succeeding gateway it returns no error at all — and it issues exactly one
runtime teardown call rather than none. -/
theorem down_before_up_calls_gateway :
    (Down fresh (fun _ _ => none) []).err = none ∧
    (Down fresh (fun _ _ => none) []).gatewayCalls.length = 1 :=
  ⟨rfl, rfl⟩

/-- Claim C1 as amended: calling `Down` on a controller on which `Up` never ran
performs no caller-misuse check: it issues exactly one teardown call to the
runtime gateway, whose options carry no compiled project (`Project` is nil),
and returns whatever the gateway returns. -/
theorem down_never_started_behaviour (d : DockerComposeState)
    (gateway : DownGateway) (opts : List StackDownOption)
    (h : d.project = none) :
    ∃ options : DownOptions, options.Project = none ∧
      (Down d gateway opts).gatewayCalls = [(d.name, options)] ∧
      (Down d gateway opts).err = gateway d.name options := by
  refine ⟨opts.foldl (fun acc o => applyToStackDown o acc)
    { Project := d.project, RemoveOrphans := false, Images := "" }, ?_, rfl, rfl⟩
  rw [foldl_applyToStackDown_project]
  exact h

theorem down_never_started_behaviour_witness :
    fresh.project = none ∧
    (∃ options : DownOptions, options.Project = none ∧
      (Down fresh (fun _ _ => some "gw failed") [.removeOrphans true]).gatewayCalls =
        [(fresh.name, options)] ∧
      (Down fresh (fun _ _ => some "gw failed") [.removeOrphans true]).err =
        (fun (_ : String) (_ : DownOptions) => some "gw failed") fresh.name options) :=
  ⟨rfl, down_never_started_behaviour fresh (fun _ _ => some "gw failed")
    [.removeOrphans true] rfl⟩

/-! ### `Up` (compose_api.go lines 208-279) -/

/-- Constant `api.RecreateDiverged`: recreate only containers whose definition
diverged. -/
def RecreateDiverged : String := "diverged"

/-- The `stackUpOptions` record as used by this file: requested service
names, recreate policies for primary and dependency services, orphan
removal, the wait flag, and the project handed to the start options. -/
structure StackUpOptionsRec where
  Services : List String
  Recreate : String
  RecreateDependencies : String
  RemoveOrphans : Bool
  Wait : Bool
  Project : Option Project

/-- The `StackUpOption` implementations applicable to `stackUpOptions` in
this file: `RunServices` (lines 40-44), `RemoveOrphans` (lines 56-58) and
`Wait` (lines 67-69). -/
inductive StackUpOption where
  | runServices (names : List String)
  | removeOrphans (b : Bool)
  | wait (b : Bool)

def applyToStackUp : StackUpOption → StackUpOptionsRec → StackUpOptionsRec
  | .runServices names, o => { o with Services := names }
  | .removeOrphans b, o => { o with RemoveOrphans := b }
  | .wait b, o => { o with Wait := b }

/-- Model of `Project.ServiceNames()` (compose-go, external): collects the service
names and returns them sorted ascending. -/
def serviceNames (p : Project) : List String :=
  sortStrings (p.Services.map ServiceConfig.Name)

/-- The compose service's `Up(ctx, project, options)` call; the model hands
it the (possibly filtered) project and the applied option record from which
the Go code builds `api.CreateOptions` and `api.StartOptions`. -/
abbrev UpGateway := Project → StackUpOptionsRec → Option String

/-- Outcome of one `Up` call: the returned error, the controller's compiled
project field afterwards, and the readiness tasks launched (one per bound
service name, in registration order). -/
structure UpRun where
  err : Option String
  project : Option Project
  launchedTasks : List String

/-- Lines 217-226 of `Up`: `stackUpOptions` seeded with all compiled service
names, diverged-recreate policies and the compiled project, then each caller
option applied in order. -/
def upAppliedOptions (proj : Project) (opts : List StackUpOption) :
    StackUpOptionsRec :=
  opts.foldl (fun acc o => applyToStackUp o acc)
    { Services := serviceNames proj, Recreate := RecreateDiverged,
      RecreateDependencies := RecreateDiverged, RemoveOrphans := false,
      Wait := false, Project := some proj }

/-- Lines 228-240 of `Up`: the project with its service list narrowed by the
requested-subset filter. -/
def upFilteredProject (proj : Project) (opts : List StackUpOption) : Project :=
  { proj with
    Services := upFilter (upAppliedOptions proj opts).Services proj.Services }

/-- Method `Up` (lines 208-279). The compile step is external, so its outcome is a
parameter: on a compile error `Up` returns it with `d.project` left nil (the
failed compile assigned nil, line 212). Otherwise the options are applied,
the service list filtered, and one up call issued to the compose service; on
its error `Up` returns it at once, the filtered project still compiled and no
readiness task launched. With no wait strategies `Up` then returns success
directly. Otherwise one readiness task per binding resolves its container
through the cache and runs its strategy; `errgroup.Wait` returns the first
error in task-completion order, which is scheduler-dependent — the model
reads the tasks in registration order (no theorem below depends on this
branch's error choice). -/
def Up (d : DockerComposeState) (compiled : Except String Project)
    (gateway : UpGateway) (runtime : RuntimeList)
    (opts : List StackUpOption) : UpRun :=
  match compiled with
  | .error e => { err := some e, project := none, launchedTasks := [] }
  | .ok proj =>
    let upOptions := upAppliedOptions proj opts
    let proj' := upFilteredProject proj opts
    match gateway proj' upOptions with
    | some e => { err := some e, project := some proj', launchedTasks := [] }
    | none =>
      if d.waitStrategies.length = 0 then
        { err := none, project := some proj', launchedTasks := [] }
      else
        { err := d.waitStrategies.findSome? fun p =>
            match (lookupContainer d.containers d.name runtime p.1).result with
            | .error e => some e
            | .ok target => p.2 target,
          project := some proj',
          launchedTasks := d.waitStrategies.map Prod.fst }

/-- Claim C8: with a successfully compiled project, (a) if the gateway's up call
fails, `Up` returns exactly the gateway's error, leaves the (filtered)
compiled project set, and launches no readiness task — whatever readiness
bindings the controller holds; (b) if the gateway call succeeds and no
readiness bindings are registered, `Up` returns success immediately with no
readiness task launched. -/
theorem up_gateway_error_and_no_bindings (d1 d2 : DockerComposeState)
    (proj : Project) (gwErr gwOk : UpGateway) (runtime : RuntimeList)
    (opts : List StackUpOption) (e : String)
    (h1 : gwErr (upFilteredProject proj opts) (upAppliedOptions proj opts) = some e)
    (h2 : gwOk (upFilteredProject proj opts) (upAppliedOptions proj opts) = none)
    (h3 : d2.waitStrategies = []) :
    Up d1 (.ok proj) gwErr runtime opts =
      { err := some e, project := some (upFilteredProject proj opts),
        launchedTasks := [] } ∧
    Up d2 (.ok proj) gwOk runtime opts =
      { err := none, project := some (upFilteredProject proj opts),
        launchedTasks := [] } := by
  constructor
  · simp only [Up, h1]
  · simp only [Up, h2, h3, List.length_nil, if_true]

/-- A controller with one readiness binding, to exercise the gateway-error
branch of C8 with bindings present. -/
def oneBinding : DockerComposeState :=
  { fresh with waitStrategies := [("web", fun _ => none)] }

def projUp : Project := ⟨"proj", "/wd", ["a.yml"], [⟨"web", []⟩, ⟨"db", []⟩]⟩

theorem up_gateway_error_and_no_bindings_witness :
    ((fun (_ : Project) (_ : StackUpOptionsRec) => some "engine down")
        (upFilteredProject projUp []) (upAppliedOptions projUp []) =
      some "engine down") ∧
    ((fun (_ : Project) (_ : StackUpOptionsRec) => (none : Option String))
        (upFilteredProject projUp []) (upAppliedOptions projUp []) = none) ∧
    fresh.waitStrategies = [] ∧
    (Up oneBinding (.ok projUp) (fun _ _ => some "engine down") rtErr [] =
      { err := some "engine down", project := some (upFilteredProject projUp []),
        launchedTasks := [] } ∧
    Up fresh (.ok projUp) (fun _ _ => none) rtErr [] =
      { err := none, project := some (upFilteredProject projUp []),
        launchedTasks := [] }) :=
  ⟨rfl, rfl, rfl,
    up_gateway_error_and_no_bindings oneBinding fresh projUp
      (fun _ _ => some "engine down") (fun _ _ => none) rtErr [] "engine down"
      rfl rfl rfl⟩
